import Mathlib

/-!
Verification of the WalmartAI restock-prediction pipeline.

Shallow embedding of the core pipeline in `AI_predictions/AIpredictive.py`
(purchase-pattern aggregation, household-size estimation against the
reference consumption table, next-purchase forecasting) and of the restock
query service in `assistant_chatbot/restocking.py` (`get_restock_list`).

Modelling conventions:
* Timestamps (`RunDate`, `predicted_next_date`, reference dates) are ℚ,
  counted in days since an epoch (pandas timestamps are exact counts of
  nanoseconds, hence exact rationals in day units; a time-of-day part is a
  fractional day).  A pandas `Timedelta.days` / `timedelta.days` value for
  the difference Δ of two timestamps is then `⌊Δ⌋`, and adding
  `timedelta(days=x)` for a numeric `x` adds `x`.
* pandas `groupby(['tid','PRODUCT_NAME'])` (with the default `sort=True`)
  is modelled by enumerating the distinct keys in ascending lexicographic
  order (`canonicalKeys`) and filtering the rows of each group.
* Python's `min(diffs, key=diffs.get)` over a dict built in insertion order
  is a left fold that replaces the current best only on a strictly smaller
  key, hence returns the first minimiser (`argminFirst`).
* `restock_items.sort(key=lambda x: x['predicted_date'])` sorts by the
  `'%Y-%m-%d'` string; pandas timestamps always carry four-digit years
  (range 1677–2262), on which lexicographic string order coincides with
  calendar order, so the sort key is modelled by the calendar day number
  `⌊t⌋`.
-/

/-- A raw transaction record (one row of `Our_dataset.csv`):
household id `tid`, `PRODUCT_NAME`, and the parsed `RunDate`. -/
structure Txn where
  tid : String
  product : String
  runDate : ℚ
  deriving DecidableEq, Repr

/-- One row of `consumption_table.csv`: a product name and the seven
expected-interval columns for household-size buckets 1..6 and "6+". -/
structure ConsumptionRow where
  product : String
  size1 : ℚ
  size2 : ℚ
  size3 : ℚ
  size4 : ℚ
  size5 : ℚ
  size6 : ℚ
  size6plus : ℚ
  deriving DecidableEq, Repr

/-- The dict `{str(size): abs(avg - row[str(size)]) ...}` is built over the
buckets in this fixed enumeration order; we keep the (label, value) pairs. -/
def bucketVals (r : ConsumptionRow) : List (String × ℚ) :=
  [("1", r.size1), ("2", r.size2), ("3", r.size3), ("4", r.size4),
   ("5", r.size5), ("6", r.size6), ("6+", r.size6plus)]

/-- The groupby key `(tid, PRODUCT_NAME)`. -/
def txnKey (t : Txn) : String × String := (t.tid, t.product)

/-- Lexicographic order on groupby keys, matching how pandas sorts the
string pair `(tid, PRODUCT_NAME)` when emitting groups: Python compares
strings code point by code point, i.e. lexicographically on the character
lists `String.data`. -/
def keyLE (a b : String × String) : Prop :=
  a.1.data < b.1.data ∨ (a.1.data = b.1.data ∧ a.2.data ≤ b.2.data)

instance : DecidableRel keyLE := fun a b => by
  unfold keyLE; infer_instance

lemma String.data_injective {a b : String} (h : a.data = b.data) : a = b :=
  congrArg String.mk h

instance : IsTotal (String × String) keyLE where
  total a b := by
    rcases lt_trichotomy a.1.data b.1.data with h | h | h
    · exact Or.inl (Or.inl h)
    · rcases le_total a.2.data b.2.data with h2 | h2
      · exact Or.inl (Or.inr ⟨h, h2⟩)
      · exact Or.inr (Or.inr ⟨h.symm, h2⟩)
    · exact Or.inr (Or.inl h)

instance : IsTrans (String × String) keyLE where
  trans a b c hab hbc := by
    rcases hab with h1 | ⟨e1, h1⟩
    · rcases hbc with h2 | ⟨e2, h2⟩
      · exact Or.inl (h1.trans h2)
      · exact Or.inl (e2 ▸ h1)
    · rcases hbc with h2 | ⟨e2, h2⟩
      · exact Or.inl (e1 ▸ h2)
      · exact Or.inr ⟨e1.trans e2, h1.trans h2⟩

instance : IsAntisymm (String × String) keyLE where
  antisymm a b hab hba := by
    rcases hab with h1 | ⟨e1, h1⟩
    · rcases hba with h2 | ⟨e2, h2⟩
      · exact absurd (h1.trans h2) (lt_irrefl _)
      · exact absurd h1 (e2 ▸ lt_irrefl _)
    · rcases hba with h2 | ⟨e2, h2⟩
      · exact absurd h2 (e1 ▸ lt_irrefl _)
      · exact Prod.ext (String.data_injective e1)
          (String.data_injective (le_antisymm h1 h2))

/-- The distinct `(tid, PRODUCT_NAME)` keys of the input, in the ascending
order in which pandas `groupby` (default `sort=True`) emits them. -/
def canonicalKeys (ts : List Txn) : List (String × String) :=
  (List.insertionSort keyLE (ts.map txnKey)).dedup

/-- The minimum of a list of rationals (`grouped['RunDate'].agg('min')`);
the `[]` case is unreachable for a nonempty group. -/
def listMin : List ℚ → ℚ
  | [] => 0
  | x :: xs => xs.foldl min x

/-- The maximum of a list of rationals (`grouped['RunDate'].agg('max')`). -/
def listMax : List ℚ → ℚ
  | [] => 0
  | x :: xs => xs.foldl max x

/-- One Purchase Pattern row: the `agg(['min','max','count'])` result plus
the derived `avg_days_between_orders` column. -/
structure Pattern where
  tid : String
  product : String
  minDate : ℚ
  maxDate : ℚ
  count : ℕ
  avgDaysBetweenOrders : ℚ
  deriving DecidableEq, Repr

/-- `avg_days_between_orders = ((max - min).dt.days / (count - 1)).fillna(0)`:
the only NaN arises from `0/0` at `count == 1`, which `fillna` maps to 0. -/
def avgDaysFormula (mn mx : ℚ) (count : ℕ) : ℚ :=
  if count = 1 then 0 else (⌊mx - mn⌋ : ℚ) / ((count : ℚ) - 1)

/-- The rows of the transaction set belonging to one groupby key. -/
def groupOf (ts : List Txn) (k : String × String) : List Txn :=
  ts.filter (fun t => txnKey t = k)

/-- Step 1 of the pipeline: `purchase_patterns` — one row per distinct
`(tid, PRODUCT_NAME)` key with min/max/count of `RunDate` and the derived
`avg_days_between_orders`. -/
def purchase_patterns (ts : List Txn) : List Pattern :=
  (canonicalKeys ts).map (fun k =>
    let dates := (groupOf ts k).map (·.runDate)
    { tid := k.1
      product := k.2
      minDate := listMin dates
      maxDate := listMax dates
      count := dates.length
      avgDaysBetweenOrders := avgDaysFormula (listMin dates) (listMax dates) dates.length })

/-- The loop of Python's `min(iterable, key=f)`: fold the tail, replacing the
current best only when the new key is strictly smaller. -/
def pickMin (f : α → ℚ) (b : α) (xs : List α) : α :=
  xs.foldl (fun best y => if f y < f best then y else best) b

/-- `min(iterable, key=f)`: the first minimiser wins. -/
def argminFirst (f : α → ℚ) : List α → Option α
  | [] => none
  | x :: xs => some (pickMin f x xs)

/-- Step 2: `match_family_size(product, avg_days)`.  `consumption[consumption
['Product'] == product]` with `.values[0]` picks the first matching row
(`find?`); an empty selection returns `(None, None)`; otherwise the bucket
minimising `abs(avg_days - row[size])` (first wins under `min`) and that
bucket's reference value are returned. -/
def match_family_size (consumption : List ConsumptionRow) (product : String)
    (avgDays : ℚ) : Option String × Option ℚ :=
  match consumption.find? (fun r => r.product = product) with
  | none => (none, none)
  | some row =>
    match argminFirst (fun p => |avgDays - p.2|) (bucketVals row) with
    | none => (none, none)
    | some best => (some best.1, some best.2)

/-- One Forecast Record: a row of the final `predicted_restock` table. -/
structure Forecast where
  tid : String
  product : String
  estimatedFamilySize : Option String
  avgDaysBetweenOrders : ℚ
  consumptionDays : Option ℚ
  lastPurchase : ℚ
  predictedNextDate : ℚ
  deriving DecidableEq, Repr

/-- Steps 2–4 of the pipeline: apply `match_family_size` to every pattern
row, merge the per-key `last_purchase` (the groupby max, identical to the
pattern's own max since the merge joins on the same unique keys), and set
`predicted_next_date = last_purchase + timedelta(days=consumption_days)`
with `timedelta(days=0)` when `consumption_days` is null. -/
def predicted_restock (ts : List Txn) (consumption : List ConsumptionRow) :
    List Forecast :=
  (purchase_patterns ts).map (fun p =>
    let r := match_family_size consumption p.product p.avgDaysBetweenOrders
    { tid := p.tid
      product := p.product
      estimatedFamilySize := r.1
      avgDaysBetweenOrders := p.avgDaysBetweenOrders
      consumptionDays := r.2
      lastPurchase := p.maxDate
      predictedNextDate := p.maxDate + r.2.getD 0 })

/-- One element of the list returned by `get_restock_list`:
`{"product_name": ..., "predicted_date": strftime day, "days_overdue": ...}`.
`predictedDate` is the calendar day number `⌊predicted_next_date⌋` carried
by the `'%Y-%m-%d'` string. -/
structure RestockItem where
  productName : String
  predictedDate : ℤ
  daysOverdue : ℤ
  deriving DecidableEq, Repr

/-- Python's `str.strip()`: drop leading and trailing whitespace, modelled
on the character list of the string. -/
def pyStrip (s : String) : String :=
  ⟨((s.data.dropWhile Char.isWhitespace).reverse.dropWhile Char.isWhitespace).reverse⟩

/-- Sort key of `restock_items.sort(key=lambda x: x['predicted_date'])`. -/
def itemLE (a b : RestockItem) : Prop := a.predictedDate ≤ b.predictedDate

instance : DecidableRel itemLE := fun a b => by
  unfold itemLE; infer_instance

instance : IsTotal RestockItem itemLE where
  total a b := le_total a.predictedDate b.predictedDate

instance : IsTrans RestockItem itemLE where
  trans _ _ _ hab hbc := le_trans hab hbc

/-- `restocking.get_restock_list(user_id, reference_date)`.  The loaded
forecast table `df_predictions` and the ambient wall clock (`datetime.today()`)
are passed explicitly; `userId = none` models a non-string argument, which the
`isinstance` guard rejects.  The function validates and strips the user id,
filters the user's rows, defaults the reference date to `today`, keeps the
rows with `predicted_next_date <= reference_date`, builds the item dicts and
sorts them by the formatted predicted date. -/
def get_restock_list (preds : List Forecast) (userId : Option String)
    (referenceDate : Option ℚ) (today : ℚ) : List RestockItem :=
  match userId with
  | none => []
  | some uid0 =>
    let uid := pyStrip uid0
    if uid = "" then []
    else
      let userData := preds.filter (fun r => r.tid = uid)
      if userData.isEmpty then []
      else
        let ref := referenceDate.getD today
        let dueItems := userData.filter (fun r => r.predictedNextDate ≤ ref)
        if dueItems.isEmpty then []
        else
          let items := dueItems.map (fun (r : Forecast) =>
            ({ productName := r.product
               predictedDate := ⌊r.predictedNextDate⌋
               daysOverdue := ⌊ref - r.predictedNextDate⌋ } : RestockItem))
          List.insertionSort itemLE items

/-! ### Concrete fixtures (the spec's worked example: `H1` buys `ProductX`
on days 0, 10 and 20; the reference row for `ProductX` has bucket 2 ↦ 10) -/

/-- Reference table with a single row for `ProductX`. -/
def wConsumption : List ConsumptionRow := [⟨"ProductX", 30, 10, 7, 5, 4, 3, 2⟩]

/-- Three purchases of `ProductX` by household `H1`, ten days apart. -/
def wTxns : List Txn :=
  [⟨"H1", "ProductX", 0⟩, ⟨"H1", "ProductX", 10⟩, ⟨"H1", "ProductX", 20⟩]

/-- A single purchase of `ProductY` (absent from the reference table) by
household `H2` on day 59. -/
def wTxns2 : List Txn := [⟨"H2", "ProductY", 59⟩]

/-- The forecast table produced by the pipeline on the worked example. -/
def wPreds : List Forecast := predicted_restock wTxns wConsumption

/-- Two households' transactions, in one input order … -/
def wTxnsMixed : List Txn := [⟨"H1", "ProductX", 0⟩, ⟨"H2", "ProductY", 59⟩]

/-- … and in the swapped input order. -/
def wTxnsSwapped : List Txn := [⟨"H2", "ProductY", 59⟩, ⟨"H1", "ProductX", 0⟩]

/-! ### Helper lemmas about `listMin`, `listMax` -/

lemma foldl_min_le_init (xs : List ℚ) (b : ℚ) : xs.foldl min b ≤ b := by
  induction xs generalizing b with
  | nil => simp
  | cons x xs ih => exact le_trans (ih (min b x)) (min_le_left b x)

lemma foldl_min_le_mem (xs : List ℚ) (b a : ℚ) (h : a ∈ xs) : xs.foldl min b ≤ a := by
  induction xs generalizing b with
  | nil => cases h
  | cons x xs ih =>
    rcases List.mem_cons.mp h with rfl | h
    · exact le_trans (foldl_min_le_init xs (min b a)) (min_le_right b a)
    · exact ih (min b x) h

lemma foldl_min_mem (xs : List ℚ) (b : ℚ) : xs.foldl min b = b ∨ xs.foldl min b ∈ xs := by
  induction xs generalizing b with
  | nil => exact Or.inl rfl
  | cons x xs ih =>
    rcases ih (min b x) with h | h
    · rcases le_total b x with hle | hle
      · exact Or.inl (by simpa [min_eq_left hle] using h)
      · exact Or.inr (by simp [List.foldl_cons] at h ⊢; rw [h, min_eq_right hle]; exact Or.inl rfl)
    · exact Or.inr (List.mem_cons_of_mem x h)

lemma init_le_foldl_max (xs : List ℚ) (b : ℚ) : b ≤ xs.foldl max b := by
  induction xs generalizing b with
  | nil => simp
  | cons x xs ih => exact le_trans (le_max_left b x) (ih (max b x))

lemma mem_le_foldl_max (xs : List ℚ) (b a : ℚ) (h : a ∈ xs) : a ≤ xs.foldl max b := by
  induction xs generalizing b with
  | nil => cases h
  | cons x xs ih =>
    rcases List.mem_cons.mp h with rfl | h
    · exact le_trans (le_max_right b a) (init_le_foldl_max xs (max b a))
    · exact ih (max b x) h

lemma foldl_max_mem (xs : List ℚ) (b : ℚ) : xs.foldl max b = b ∨ xs.foldl max b ∈ xs := by
  induction xs generalizing b with
  | nil => exact Or.inl rfl
  | cons x xs ih =>
    rcases ih (max b x) with h | h
    · rcases le_total x b with hle | hle
      · exact Or.inl (by simpa [max_eq_left hle] using h)
      · exact Or.inr (by simp [List.foldl_cons] at h ⊢; rw [h, max_eq_right hle]; exact Or.inl rfl)
    · exact Or.inr (List.mem_cons_of_mem x h)

lemma listMin_le {l : List ℚ} {a : ℚ} (h : a ∈ l) : listMin l ≤ a := by
  cases l with
  | nil => cases h
  | cons x xs =>
    rcases List.mem_cons.mp h with rfl | h
    · exact foldl_min_le_init xs a
    · exact foldl_min_le_mem xs x a h

lemma le_listMax {l : List ℚ} {a : ℚ} (h : a ∈ l) : a ≤ listMax l := by
  cases l with
  | nil => cases h
  | cons x xs =>
    rcases List.mem_cons.mp h with rfl | h
    · exact init_le_foldl_max xs a
    · exact mem_le_foldl_max xs x a h

lemma listMin_mem {l : List ℚ} (h : l ≠ []) : listMin l ∈ l := by
  cases l with
  | nil => exact absurd rfl h
  | cons x xs =>
    rcases foldl_min_mem xs x with h1 | h1
    · rw [listMin, h1]; exact List.mem_cons_self x xs
    · exact List.mem_cons_of_mem x (by rw [listMin]; exact h1)

lemma listMax_mem {l : List ℚ} (h : l ≠ []) : listMax l ∈ l := by
  cases l with
  | nil => exact absurd rfl h
  | cons x xs =>
    rcases foldl_max_mem xs x with h1 | h1
    · rw [listMax, h1]; exact List.mem_cons_self x xs
    · exact List.mem_cons_of_mem x (by rw [listMax]; exact h1)

lemma listMin_le_listMax {l : List ℚ} (h : l ≠ []) : listMin l ≤ listMax l :=
  le_listMax (listMin_mem h)

lemma listMin_perm {l l' : List ℚ} (h : l.Perm l') : listMin l = listMin l' := by
  cases l with
  | nil => rw [h.nil_eq]
  | cons x xs =>
    have hne : l' ≠ [] := by
      intro hnil; rw [hnil] at h; exact absurd h.symm.nil_eq (by simp)
    have hne2 : (x :: xs : List ℚ) ≠ [] := by simp
    exact le_antisymm (listMin_le (h.mem_iff.mpr (listMin_mem hne)))
      (listMin_le (h.symm.mem_iff.mpr (listMin_mem hne2)))

lemma listMax_perm {l l' : List ℚ} (h : l.Perm l') : listMax l = listMax l' := by
  cases l with
  | nil => rw [h.nil_eq]
  | cons x xs =>
    have hne : l' ≠ [] := by
      intro hnil; rw [hnil] at h; exact absurd h.symm.nil_eq (by simp)
    have hne2 : (x :: xs : List ℚ) ≠ [] := by simp
    exact le_antisymm (le_listMax (h.symm.mem_iff.mpr (listMax_mem hne2)))
      (le_listMax (h.mem_iff.mpr (listMax_mem hne)))

/-! ### Helper lemmas about `canonicalKeys` and `groupOf` -/

lemma mem_canonicalKeys {ts : List Txn} {k : String × String} :
    k ∈ canonicalKeys ts ↔ k ∈ ts.map txnKey := by
  unfold canonicalKeys
  rw [List.mem_dedup, (List.perm_insertionSort keyLE (ts.map txnKey)).mem_iff]

lemma nodup_canonicalKeys (ts : List Txn) : (canonicalKeys ts).Nodup :=
  List.nodup_dedup _

lemma canonicalKeys_perm {ts ts' : List Txn} (h : ts.Perm ts') :
    canonicalKeys ts = canonicalKeys ts' := by
  unfold canonicalKeys
  congr 1
  refine List.eq_of_perm_of_sorted ?_
    (List.sorted_insertionSort keyLE _) (List.sorted_insertionSort keyLE _)
  exact ((List.perm_insertionSort keyLE (ts.map txnKey)).trans (h.map txnKey)).trans
    (List.perm_insertionSort keyLE (ts'.map txnKey)).symm

lemma groupOf_perm {ts ts' : List Txn} (k : String × String) (h : ts.Perm ts') :
    (groupOf ts k).Perm (groupOf ts' k) :=
  h.filter _

lemma groupOf_ne_nil {ts : List Txn} {k : String × String}
    (h : k ∈ canonicalKeys ts) : groupOf ts k ≠ [] := by
  rw [mem_canonicalKeys] at h
  obtain ⟨t, ht, hk⟩ := List.mem_map.mp h
  intro hnil
  have hmem : t ∈ groupOf ts k := by
    unfold groupOf
    rw [List.mem_filter]
    exact ⟨ht, by simp [hk]⟩
  rw [hnil] at hmem
  cases hmem

/-! ### Specification of `pickMin` / `argminFirst` -/

lemma pickMin_spec (f : α → ℚ) : ∀ (xs : List α) (b m : α), pickMin f b xs = m →
    (∀ a ∈ xs, f m ≤ f a) ∧ f m ≤ f b ∧
      (m = b ∨
        (f m < f b ∧ ∃ l₁ l₂, xs = l₁ ++ m :: l₂ ∧ ∀ a ∈ l₁, f m < f a)) := by
  intro xs
  induction xs with
  | nil =>
    intro b m hm
    rw [show m = b from hm.symm]
    exact ⟨by simp, le_refl _, Or.inl rfl⟩
  | cons x xs ih =>
    intro b m hm
    by_cases h : f x < f b
    · have hstep : pickMin f x xs = m := by
        rw [← hm]; simp [pickMin, List.foldl_cons, if_pos h]
      obtain ⟨ih1, ih2, ih3⟩ := ih x m hstep
      refine ⟨?_, le_trans ih2 h.le, ?_⟩
      · intro a ha
        rcases List.mem_cons.mp ha with rfl | ha
        · exact ih2
        · exact ih1 a ha
      · right
        refine ⟨lt_of_le_of_lt ih2 h, ?_⟩
        rcases ih3 with heq | ⟨hlt, l₁, l₂, hsplit, hpre⟩
        · exact ⟨[], xs, by simp [heq], by simp⟩
        · refine ⟨x :: l₁, l₂, by rw [List.cons_append, hsplit], ?_⟩
          intro a ha
          rcases List.mem_cons.mp ha with rfl | ha
          · exact hlt
          · exact hpre a ha
    · have hble : f b ≤ f x := le_of_not_lt h
      have hstep : pickMin f b xs = m := by
        rw [← hm]; simp [pickMin, List.foldl_cons, if_neg h]
      obtain ⟨ih1, ih2, ih3⟩ := ih b m hstep
      refine ⟨?_, ih2, ?_⟩
      · intro a ha
        rcases List.mem_cons.mp ha with rfl | ha
        · exact le_trans ih2 hble
        · exact ih1 a ha
      · rcases ih3 with heq | ⟨hlt, l₁, l₂, hsplit, hpre⟩
        · exact Or.inl heq
        · right
          refine ⟨hlt, x :: l₁, l₂, by rw [List.cons_append, hsplit], ?_⟩
          intro a ha
          rcases List.mem_cons.mp ha with rfl | ha
          · exact lt_of_lt_of_le hlt hble
          · exact hpre a ha

lemma argminFirst_spec (f : α → ℚ) (x : α) (xs : List α) :
    ∃ m l₁ l₂, argminFirst f (x :: xs) = some m ∧ x :: xs = l₁ ++ m :: l₂ ∧
      (∀ a ∈ x :: xs, f m ≤ f a) ∧ (∀ a ∈ l₁, f m < f a) := by
  obtain ⟨h1, h2, h3⟩ := pickMin_spec f xs x (pickMin f x xs) rfl
  refine ⟨pickMin f x xs, ?_⟩
  generalize hm : pickMin f x xs = m at *
  rcases h3 with heq | ⟨hlt, l₁, l₂, hsplit, hpre⟩
  · refine ⟨[], xs, by rw [argminFirst, hm], by simp [heq], ?_, by simp⟩
    intro a ha
    rcases List.mem_cons.mp ha with rfl | ha
    · exact h2
    · exact h1 a ha
  · refine ⟨x :: l₁, l₂, by rw [argminFirst, hm], by rw [List.cons_append, hsplit], ?_, ?_⟩
    · intro a ha
      rcases List.mem_cons.mp ha with rfl | ha
      · exact h2
      · exact h1 a ha
    · intro a ha
      rcases List.mem_cons.mp ha with rfl | ha
      · exact hlt
      · exact hpre a ha

set_option maxRecDepth 10000

/-! ### Claims -/

/-- C1: for every Purchase Pattern row, if `purchase_count == 1` then
`avg_days_between_orders == 0`, and if `purchase_count > 1` then
`avg_days_between_orders == (last − first in days) / (purchase_count − 1)`,
which is always ≥ 0. -/
theorem C1_avg_days_between_orders (ts : List Txn) (p : Pattern)
    (hp : p ∈ purchase_patterns ts) :
    (p.count = 1 → p.avgDaysBetweenOrders = 0) ∧
    (1 < p.count →
      p.avgDaysBetweenOrders =
        (⌊p.maxDate - p.minDate⌋ : ℚ) / ((p.count : ℚ) - 1) ∧
      0 ≤ p.avgDaysBetweenOrders) := by
  rw [purchase_patterns] at hp
  obtain ⟨k, hk, rfl⟩ := List.mem_map.mp hp
  dsimp only
  constructor
  · intro h1
    rw [avgDaysFormula, if_pos h1]
  · intro h2
    have hne : ((groupOf ts k).map (·.runDate)).length ≠ 1 := by omega
    have hnil : (groupOf ts k).map (·.runDate) ≠ [] := by
      intro h
      rw [h] at h2
      exact absurd h2 (by simp)
    rw [avgDaysFormula, if_neg hne]
    refine ⟨rfl, div_nonneg ?_ ?_⟩
    · have hmm : listMin ((groupOf ts k).map (·.runDate)) ≤
          listMax ((groupOf ts k).map (·.runDate)) := listMin_le_listMax hnil
      have : (0 : ℤ) ≤ ⌊listMax ((groupOf ts k).map (·.runDate)) -
          listMin ((groupOf ts k).map (·.runDate))⌋ :=
        Int.floor_nonneg.mpr (sub_nonneg.mpr hmm)
      exact_mod_cast this
    · have : (1 : ℚ) ≤ (((groupOf ts k).map (·.runDate)).length : ℚ) := by
        exact_mod_cast h2.le
      linarith

/-- Witness for C1 at the concrete example (3 purchases, 10 days apart). -/
theorem C1_avg_days_between_orders_witness :
    (⟨"H1", "ProductX", 0, 20, 3, 10⟩ : Pattern) ∈ purchase_patterns wTxns ∧
    (((⟨"H1", "ProductX", 0, 20, 3, 10⟩ : Pattern).count = 1 →
        (⟨"H1", "ProductX", 0, 20, 3, 10⟩ : Pattern).avgDaysBetweenOrders = 0) ∧
      (1 < (⟨"H1", "ProductX", 0, 20, 3, 10⟩ : Pattern).count →
        (⟨"H1", "ProductX", 0, 20, 3, 10⟩ : Pattern).avgDaysBetweenOrders =
          (⌊(⟨"H1", "ProductX", 0, 20, 3, 10⟩ : Pattern).maxDate -
              (⟨"H1", "ProductX", 0, 20, 3, 10⟩ : Pattern).minDate⌋ : ℚ) /
            (((⟨"H1", "ProductX", 0, 20, 3, 10⟩ : Pattern).count : ℚ) - 1) ∧
        0 ≤ (⟨"H1", "ProductX", 0, 20, 3, 10⟩ : Pattern).avgDaysBetweenOrders)) :=
  ⟨by with_unfolding_all decide, C1_avg_days_between_orders wTxns _ (by with_unfolding_all decide)⟩

/-- For a product whose first matching reference row is `row`, the estimator
returns the bucket of `row` minimising the absolute difference to the
observed average (first bucket wins on ties) and that bucket's value. -/
lemma match_family_size_spec (c : List ConsumptionRow) (prod : String)
    (avg : ℚ) (row : ConsumptionRow)
    (h : c.find? (fun r => r.product = prod) = some row) :
    ∃ b v l₁ l₂, match_family_size c prod avg = (some b, some v) ∧
      bucketVals row = l₁ ++ (b, v) :: l₂ ∧
      (∀ p ∈ bucketVals row, |avg - v| ≤ |avg - p.2|) ∧
      (∀ p ∈ l₁, |avg - v| < |avg - p.2|) := by
  obtain ⟨m, l₁, l₂, hm, hsplit, hmin, hstrict⟩ :=
    argminFirst_spec (fun p => |avg - p.2|) ("1", row.size1)
      [("2", row.size2), ("3", row.size3), ("4", row.size4),
       ("5", row.size5), ("6", row.size6), ("6+", row.size6plus)]
  have hbv : bucketVals row = ("1", row.size1) ::
      [("2", row.size2), ("3", row.size3), ("4", row.size4),
       ("5", row.size5), ("6", row.size6), ("6+", row.size6plus)] := rfl
  refine ⟨m.1, m.2, l₁, l₂, ?_, ?_, ?_, ?_⟩
  · simp only [match_family_size, h, hbv, hm]
  · rw [hbv, hsplit]
  · intro p hp
    rw [hbv] at hp
    exact hmin p hp
  · exact hstrict

/-- C2: for every product present in the reference table and every observed
average interval, the estimator returns the bucket minimising the absolute
difference to the reference interval (first bucket wins on ties, in the
enumeration order 1,2,3,4,5,6,6+) together with that bucket's reference
value. -/
theorem C2_household_size_estimator (c : List ConsumptionRow) (prod : String)
    (avg : ℚ) (row : ConsumptionRow)
    (h : c.find? (fun r => r.product = prod) = some row) :
    ∃ b v l₁ l₂, match_family_size c prod avg = (some b, some v) ∧
      bucketVals row = l₁ ++ (b, v) :: l₂ ∧
      (∀ p ∈ bucketVals row, |avg - v| ≤ |avg - p.2|) ∧
      (∀ p ∈ l₁, |avg - v| < |avg - p.2|) :=
  match_family_size_spec c prod avg row h

/-- Witness for C2 at the concrete reference row for `ProductX`. -/
theorem C2_household_size_estimator_witness :
    wConsumption.find? (fun r => r.product = "ProductX") =
      some ⟨"ProductX", 30, 10, 7, 5, 4, 3, 2⟩ ∧
    ∃ b v l₁ l₂, match_family_size wConsumption "ProductX" 10 = (some b, some v) ∧
      bucketVals ⟨"ProductX", 30, 10, 7, 5, 4, 3, 2⟩ = l₁ ++ (b, v) :: l₂ ∧
      (∀ p ∈ bucketVals (⟨"ProductX", 30, 10, 7, 5, 4, 3, 2⟩ : ConsumptionRow),
        |(10:ℚ) - v| ≤ |(10:ℚ) - p.2|) ∧
      (∀ p ∈ l₁, |(10:ℚ) - v| < |(10:ℚ) - p.2|) :=
  ⟨by with_unfolding_all decide,
    C2_household_size_estimator wConsumption "ProductX" 10 _
      (by with_unfolding_all decide)⟩

/-- Case analysis of `match_family_size`: either the product is absent and
both results are `None`, or the result is a bucket of the first matching
reference row together with that bucket's value. -/
lemma match_family_size_cases (c : List ConsumptionRow) (prod : String)
    (avg : ℚ) :
    match_family_size c prod avg = (none, none) ∨
    ∃ row b v, row ∈ c ∧ match_family_size c prod avg = (some b, some v) ∧
      (b, v) ∈ bucketVals row := by
  cases hfind : c.find? (fun r => r.product = prod) with
  | none => exact Or.inl (by rw [match_family_size, hfind])
  | some row =>
    obtain ⟨b, v, l₁, l₂, hm, hsplit, _, _⟩ :=
      match_family_size_spec c prod avg row hfind
    exact Or.inr ⟨row, b, v, List.mem_of_find?_eq_some hfind, hm,
      hsplit ▸ List.mem_append_right l₁ (List.mem_cons_self _ _)⟩

/-- C3: every Forecast Record satisfies
`predicted_next_date = last_purchase_date + consumption_days` (in days,
absent treated as 0), and provided every reference interval in the
consumption table is nonnegative, `predicted_next_date >= last_purchase_date`. -/
theorem C3_predicted_next_date (ts : List Txn) (c : List ConsumptionRow)
    (hc : ∀ r ∈ c, ∀ p ∈ bucketVals r, 0 ≤ p.2) (f : Forecast)
    (hf : f ∈ predicted_restock ts c) :
    f.predictedNextDate = f.lastPurchase + f.consumptionDays.getD 0 ∧
    f.lastPurchase ≤ f.predictedNextDate := by
  rw [predicted_restock] at hf
  obtain ⟨p, hp, rfl⟩ := List.mem_map.mp hf
  refine ⟨rfl, ?_⟩
  dsimp only
  rcases match_family_size_cases c p.product p.avgDaysBetweenOrders with hnone | hsome
  · rw [hnone]
    simp
  · obtain ⟨row, b, v, hrow, heq, hbv⟩ := hsome
    rw [heq]
    have hv : 0 ≤ v := hc row hrow (b, v) hbv
    simp only [Option.getD_some]
    linarith

/-- Witness for C3 at the worked example (all reference intervals ≥ 0 in
`wConsumption`; the forecast row for `(H1, ProductX)`). -/
theorem C3_predicted_next_date_witness :
    (∀ r ∈ wConsumption, ∀ p ∈ bucketVals r, 0 ≤ p.2) ∧
    (⟨"H1", "ProductX", some "2", 10, some 10, 20, 30⟩ : Forecast) ∈
      predicted_restock wTxns wConsumption ∧
    ((⟨"H1", "ProductX", some "2", 10, some 10, 20, 30⟩ : Forecast).predictedNextDate =
        (⟨"H1", "ProductX", some "2", 10, some 10, 20, 30⟩ : Forecast).lastPurchase +
        (⟨"H1", "ProductX", some "2", 10, some 10, 20, 30⟩ : Forecast).consumptionDays.getD 0 ∧
      (⟨"H1", "ProductX", some "2", 10, some 10, 20, 30⟩ : Forecast).lastPurchase ≤
        (⟨"H1", "ProductX", some "2", 10, some 10, 20, 30⟩ : Forecast).predictedNextDate) :=
  ⟨by with_unfolding_all decide, by with_unfolding_all decide,
    C3_predicted_next_date wTxns wConsumption (by with_unfolding_all decide) _
      (by with_unfolding_all decide)⟩

/-- C4: a product absent from the reference table yields `(None, None)` from
the estimator, and a Forecast Record with absent `consumption_days` has
`predicted_next_date` equal to the last purchase date; no row is dropped. -/
theorem C4_missing_reference_degrades (c : List ConsumptionRow) (prod : String)
    (avg : ℚ) (ts : List Txn)
    (hnone : c.find? (fun r => r.product = prod) = none) :
    match_family_size c prod avg = (none, none) ∧
    ∀ f ∈ predicted_restock ts c, f.consumptionDays = none →
      f.predictedNextDate = f.lastPurchase := by
  constructor
  · rw [match_family_size, hnone]
  · intro f hf hcd
    rw [predicted_restock] at hf
    obtain ⟨p, hp, rfl⟩ := List.mem_map.mp hf
    dsimp only at hcd ⊢
    rw [hcd]
    simp

/-- Witness for C4: `ProductY` is absent from the reference table, and the
single-purchase `(H2, ProductY)` forecast collapses to the last purchase. -/
theorem C4_missing_reference_degrades_witness :
    wConsumption.find? (fun r => r.product = "ProductY") = none ∧
    (match_family_size wConsumption "ProductY" 0 = (none, none) ∧
      ∀ f ∈ predicted_restock wTxns2 wConsumption, f.consumptionDays = none →
        f.predictedNextDate = f.lastPurchase) :=
  ⟨by with_unfolding_all decide,
    C4_missing_reference_degrades wConsumption "ProductY" 0 wTxns2
      (by with_unfolding_all decide)⟩

/-- The key columns of the final table are exactly the canonical key list. -/
lemma predicted_restock_keys (ts : List Txn) (c : List ConsumptionRow) :
    (predicted_restock ts c).map (fun f => (f.tid, f.product)) = canonicalKeys ts := by
  unfold predicted_restock purchase_patterns
  rw [List.map_map, List.map_map]
  refine Eq.trans (List.map_congr_left ?_) (List.map_id _)
  intro k hk
  rfl

/-- C5: the output table has exactly one Forecast Record per distinct
`(household, product)` pair of the input: its key column is duplicate-free,
a key appears in the output iff it appears in the input, and the row count
equals the number of distinct input keys. -/
theorem C5_one_row_per_key (ts : List Txn) (c : List ConsumptionRow) :
    ((predicted_restock ts c).map (fun f => (f.tid, f.product))).Nodup ∧
    (∀ k, k ∈ (predicted_restock ts c).map (fun f => (f.tid, f.product)) ↔
      k ∈ ts.map txnKey) ∧
    (predicted_restock ts c).length = (ts.map txnKey).dedup.length := by
  refine ⟨?_, ?_, ?_⟩
  · rw [predicted_restock_keys]
    exact nodup_canonicalKeys ts
  · intro k
    rw [predicted_restock_keys]
    exact mem_canonicalKeys
  · have h1 : (predicted_restock ts c).length = (canonicalKeys ts).length := by
      rw [← predicted_restock_keys ts c, List.length_map]
    rw [h1]
    unfold canonicalKeys
    exact ((List.perm_insertionSort keyLE (ts.map txnKey)).dedup).length_eq

/-- The aggregation step is invariant under permuting the input rows. -/
lemma purchase_patterns_perm {ts ts' : List Txn} (h : ts.Perm ts') :
    purchase_patterns ts = purchase_patterns ts' := by
  unfold purchase_patterns
  rw [canonicalKeys_perm h]
  refine List.map_congr_left ?_
  intro k hk
  have hperm : ((groupOf ts k).map (·.runDate)).Perm
      ((groupOf ts' k).map (·.runDate)) := (groupOf_perm k h).map _
  dsimp only
  rw [listMin_perm hperm, listMax_perm hperm, hperm.length_eq]

/-- C9: the pipeline is a deterministic function of the multiset of input
transaction records and the reference table: permuting the input rows (in
particular, running twice on the identical input) yields the identical
Forecast Record table, row for row. -/
theorem C9_pipeline_deterministic (ts ts' : List Txn) (c : List ConsumptionRow)
    (h : ts.Perm ts') : predicted_restock ts c = predicted_restock ts' c := by
  unfold predicted_restock
  rw [purchase_patterns_perm h]

/-- Witness for C9: the two-household example in its two input orders. -/
theorem C9_pipeline_deterministic_witness :
    wTxnsSwapped.Perm wTxnsMixed ∧
    predicted_restock wTxnsSwapped wConsumption =
      predicted_restock wTxnsMixed wConsumption :=
  ⟨List.Perm.swap _ _ _,
    C9_pipeline_deterministic wTxnsSwapped wTxnsMixed wConsumption
      (List.Perm.swap _ _ _)⟩

/-- The restock list is sorted by predicted date in every branch. -/
lemma get_restock_list_sorted (preds : List Forecast) (uid : Option String)
    (refd : Option ℚ) (now : ℚ) :
    (get_restock_list preds uid refd now).Sorted itemLE := by
  unfold get_restock_list
  cases uid with
  | none => exact List.sorted_nil
  | some uid0 =>
    dsimp only
    split_ifs with h1 h2 h3
    · exact List.sorted_nil
    · exact List.sorted_nil
    · exact List.sorted_nil
    · exact List.sorted_insertionSort itemLE _

/-- Every returned restock item arises from a forecast row of the table
whose predicted date is due at the effective reference date. -/
lemma get_restock_list_mem (preds : List Forecast) (uid : Option String)
    (refd : Option ℚ) (now : ℚ) (it : RestockItem)
    (hit : it ∈ get_restock_list preds uid refd now) :
    ∃ r ∈ preds, r.predictedNextDate ≤ refd.getD now ∧
      it = ⟨r.product, ⌊r.predictedNextDate⌋, ⌊refd.getD now - r.predictedNextDate⌋⟩ := by
  unfold get_restock_list at hit
  cases uid with
  | none => cases hit
  | some uid0 =>
    dsimp only at hit
    split_ifs at hit with h1 h2 h3
    · cases hit
    · cases hit
    · cases hit
    · rw [(List.perm_insertionSort itemLE _).mem_iff] at hit
      obtain ⟨r, hr, rfl⟩ := List.mem_map.mp hit
      have hr2 := List.mem_filter.mp hr
      have hr3 := List.mem_filter.mp hr2.1
      exact ⟨r, hr3.1, of_decide_eq_true hr2.2, rfl⟩

/-- C6: with a supplied reference date, every item of the restock list is
due (`predicted_date ≤ reference_date`), carries
`days_overdue = ⌊reference − predicted⌋ ≥ 0` computed from its forecast
row, and the list is sorted ascending by predicted date. -/
theorem C6_restock_query_service (preds : List Forecast) (uid : Option String)
    (d now : ℚ) :
    (get_restock_list preds uid (some d) now).Sorted itemLE ∧
    ∀ it ∈ get_restock_list preds uid (some d) now,
      0 ≤ it.daysOverdue ∧ (it.predictedDate : ℚ) ≤ d ∧
      ∃ r ∈ preds, r.predictedNextDate ≤ d ∧
        it = ⟨r.product, ⌊r.predictedNextDate⌋, ⌊d - r.predictedNextDate⌋⟩ := by
  refine ⟨get_restock_list_sorted preds uid (some d) now, ?_⟩
  intro it hit
  obtain ⟨r, hr, hle, hform⟩ := get_restock_list_mem preds uid (some d) now it hit
  refine ⟨?_, ?_, r, hr, hle, hform⟩
  · rw [hform]
    exact Int.floor_nonneg.mpr (sub_nonneg.mpr hle)
  · rw [hform]
    exact le_trans (Int.floor_le r.predictedNextDate) hle

/-- Witness for C6: querying the worked example for `H1` on day 31 returns
the single `ProductX` item, due on day 30, one day overdue. -/
theorem C6_restock_query_service_witness :
    (get_restock_list wPreds (some "H1") (some 31) 0).Sorted itemLE ∧
    (⟨"ProductX", 30, 1⟩ : RestockItem) ∈
      get_restock_list wPreds (some "H1") (some 31) 0 ∧
    (0 ≤ (⟨"ProductX", 30, 1⟩ : RestockItem).daysOverdue ∧
      ((⟨"ProductX", 30, 1⟩ : RestockItem).predictedDate : ℚ) ≤ 31 ∧
      ∃ r ∈ wPreds, r.predictedNextDate ≤ 31 ∧
        (⟨"ProductX", 30, 1⟩ : RestockItem) =
          ⟨r.product, ⌊r.predictedNextDate⌋, ⌊31 - r.predictedNextDate⌋⟩) :=
  ⟨(C6_restock_query_service wPreds (some "H1") 31 0).1,
    by with_unfolding_all decide,
    (C6_restock_query_service wPreds (some "H1") 31 0).2 _
      (by with_unfolding_all decide)⟩

/-- C7 as stated is false: when the reference date argument is omitted, the
service reads the ambient wall clock (`datetime.today()`), so two
invocations with the omitted argument made at different times differ. -/
theorem C7_wall_clock_counterexample :
    get_restock_list wPreds (some "H1") none 30 ≠
      get_restock_list wPreds (some "H1") none 0 := by
  with_unfolding_all decide

/-- C7 (amended): when the caller supplies the reference date, the core has
no clock dependency — the result is independent of the ambient "now". -/
theorem C7_supplied_reference_date_pure (preds : List Forecast)
    (uid : Option String) (d now now' : ℚ) :
    get_restock_list preds uid (some d) now =
      get_restock_list preds uid (some d) now' := by
  cases uid <;> rfl

/-- C10: a query for a household with no Forecast Records — including a
non-string id (`none`), an id that strips to the empty string, or an id
matching no row — returns the empty list. -/
theorem C10_unknown_household_empty (preds : List Forecast)
    (uid : Option String) (refd : Option ℚ) (now : ℚ)
    (h : uid = none ∨ ∃ s, uid = some s ∧ (pyStrip s = "" ∨
      (preds.filter (fun r => r.tid = pyStrip s)).isEmpty = true)) :
    get_restock_list preds uid refd now = [] := by
  rcases h with rfl | ⟨s, rfl, hs⟩
  · rfl
  · unfold get_restock_list
    dsimp only
    split_ifs with h1 h2 h3
    · rfl
    · rfl
    · rfl
    · rcases hs with hs | hs
      · exact absurd hs h1
      · exact absurd hs h2

/-- Witness for C10: household `H9` has no rows in the example forecast
table, and the query returns the empty list. -/
theorem C10_unknown_household_empty_witness :
    ((some "H9" : Option String) = none ∨ ∃ s, (some "H9" : Option String) = some s ∧
      (pyStrip s = "" ∨ (wPreds.filter (fun r => r.tid = pyStrip s)).isEmpty = true)) ∧
    get_restock_list wPreds (some "H9") (some 31) 0 = [] :=
  ⟨Or.inr ⟨"H9", rfl, Or.inr (by with_unfolding_all decide)⟩,
    C10_unknown_household_empty wPreds (some "H9") (some 31) 0
      (Or.inr ⟨"H9", rfl, Or.inr (by with_unfolding_all decide)⟩)⟩
